import Mathlib

/-!
Verification of the invoice lifecycle and recurring-dispatch engine of the
`pack` repository.

The development shallowly embeds the JavaScript sources:
  * `src/invoiceDatabase.js` — the `InvoiceDatabase` class (invoice records,
    payment marking, auto-send flag, due-set query, next-send-date
    advancement);
  * the `AutoSendScheduler` class (single-flight `checkAndSend` pass with
    per-invoice error handling and inter-send pacing delays);
  * the `PUT /api/invoices/:id/payment` route handler (payment confirmation
    with the duplication-on-payment rule).

JavaScript `Date` values are modelled as explicit calendar records
(`JDate`); the mutable invoice array is modelled as a `List Invoice`
threaded through each operation.  Fallible external effects (PDF
generation, WhatsApp delivery) are parameters of the embedded functions.
-/

namespace Pack

/-- A JavaScript `Date`, decomposed into local calendar fields as used by
`getMonth` / `setMonth` / `getDate`.  `month` is 0-based (0 = January) as in
JS; `tod` is the time of day in milliseconds, which `setMonth` never
touches. -/
structure JDate where
  year : Nat
  month : Nat
  day : Nat
  tod : Nat
deriving DecidableEq, Repr

/-- Gregorian leap-year rule, as implemented by the JS `Date` object. -/
def isLeap (y : Nat) : Bool :=
  (y % 4 == 0 && y % 100 != 0) || y % 400 == 0

/-- Number of days of month `m` (0-based) in year `y`. -/
def daysInMonth (y m : Nat) : Nat :=
  if m = 1 then (if isLeap y then 29 else 28)
  else if m = 3 ∨ m = 5 ∨ m = 8 ∨ m = 10 then 30
  else 31

/-- `d` denotes an actual calendar date (month in range, day in range). -/
def validDate (d : JDate) : Prop :=
  d.month < 12 ∧ 1 ≤ d.day ∧ d.day ≤ daysInMonth d.year d.month

instance (d : JDate) : Decidable (validDate d) := by
  unfold validDate; infer_instance

/-- The month index reached by `date.setMonth(date.getMonth() + 1)` before
day normalisation. -/
def monthAfter (d : JDate) : Nat := (d.month + 1) % 12

/-- The year reached by `date.setMonth(date.getMonth() + 1)` before day
normalisation (December rolls into the next year). -/
def yearAfter (d : JDate) : Nat := d.year + (d.month + 1) / 12

/-- JS `date.setMonth(date.getMonth() + 1)`: the month index is bumped by
one (rolling the year over after December) and the day-of-month is kept
as-is; when the kept day exceeds the length of the target month, the JS
time-value normalisation rolls the excess days into the month after (e.g.
Jan 31 becomes "Feb 31" which normalises to Mar 3).  There is no clamping.
For a valid input date the excess is at most 3 days, so one rollover step
is exact. -/
def addOneMonth (d : JDate) : JDate :=
  let y1 := yearAfter d
  let m1 := monthAfter d
  if d.day ≤ daysInMonth y1 m1 then
    ⟨y1, m1, d.day, d.tod⟩
  else
    let m2 := m1 + 1
    ⟨y1 + m2 / 12, m2 % 12, d.day - daysInMonth y1 m1, d.tod⟩

/-- Chronological order on `JDate` (what `date1 <= date2` computes on the
underlying time values): lexicographic on year, month, day, time of day. -/
def JDate.le (a b : JDate) : Bool :=
  if a.year ≠ b.year then a.year < b.year
  else if a.month ≠ b.month then a.month < b.month
  else if a.day ≠ b.day then a.day < b.day
  else a.tod ≤ b.tod

/-- An invoice record as created by `InvoiceDatabase.addInvoice`.  Fields
that no lifecycle operation reads (cloud-storage paths, expenses, …) are
omitted. -/
structure Invoice where
  id : String
  invoiceNumber : Nat
  filename : String
  amount : Int
  items : List Int
  client : Option String
  clientPhone : String
  isRecurring : Bool
  createdAt : JDate
  paid : Bool
  paidAt : Option JDate
  nextSendDate : Option JDate
  autoSendEnabled : Bool
  lastSentAt : Option JDate
deriving DecidableEq, Repr

/-- The caller-supplied `invoiceData` argument of `addInvoice`.  Optional
fields model properties that may be absent (`undefined`) in the JS object;
`paid`, `paidAt` and `lastSentAt` are included to express that `addInvoice`
never reads them. -/
structure InvoiceData where
  invoiceNumber : Nat
  filename : String
  amount : Int
  items : Option (List Int)
  client : Option String
  clientPhone : Option String
  isRecurring : Option Bool
  createdAt : Option JDate
  nextSendDate : Option JDate
  autoSendEnabled : Option Bool
  paid : Option Bool
  paidAt : Option JDate
  lastSentAt : Option JDate
deriving Repr

/-- The persistent state of `InvoiceDatabase`: the `invoices` array. -/
structure DB where
  invoices : List Invoice
deriving DecidableEq, Repr

/-- `InvoiceDatabase.getInvoiceById`: `this.invoices.find(inv => inv.id === id)`. -/
def getInvoiceById (db : DB) (id : String) : Option Invoice :=
  db.invoices.find? (fun inv => inv.id == id)

/-- Mutating the record found by `getInvoiceById` in place: the first
element of the array with the given id is replaced by `f` applied to it;
everything else is untouched. -/
def updateFirst (l : List Invoice) (id : String) (f : Invoice → Invoice) :
    List Invoice :=
  match l with
  | [] => []
  | inv :: rest =>
    if inv.id = id then f inv :: rest else inv :: updateFirst rest id f

/-- `InvoiceDatabase.addInvoice`.  `newId` stands for
`Date.now().toString()` and `now` for `new Date()`.  Returns the updated
database and the freshly constructed invoice. -/
def addInvoice (db : DB) (d : InvoiceData) (newId : String) (now : JDate) :
    DB × Invoice :=
  let invoice : Invoice :=
    { id := newId
      invoiceNumber := d.invoiceNumber
      filename := d.filename
      amount := d.amount
      items := d.items.getD []
      client := d.client
      clientPhone := d.clientPhone.getD ""
      isRecurring := d.isRecurring.getD false
      createdAt := d.createdAt.getD now
      paid := false
      paidAt := none
      nextSendDate := d.nextSendDate
      autoSendEnabled := d.autoSendEnabled.getD false
      lastSentAt := none }
  (⟨db.invoices ++ [invoice]⟩, invoice)

/-- `InvoiceDatabase.markAsPaid`: sets `paid = true` and
`paidAt = new Date().toISOString()` on the found invoice; returns `none`
when the id is unknown. -/
def markAsPaid (db : DB) (id : String) (now : JDate) : DB × Option Invoice :=
  match getInvoiceById db id with
  | some inv =>
    let inv2 := { inv with paid := true, paidAt := some now }
    (⟨updateFirst db.invoices id (fun i => { i with paid := true, paidAt := some now })⟩,
     some inv2)
  | none => (db, none)

/-- `InvoiceDatabase.markAsUnpaid`: sets `paid = false` and `paidAt = null`. -/
def markAsUnpaid (db : DB) (id : String) : DB × Option Invoice :=
  match getInvoiceById db id with
  | some inv =>
    let inv2 := { inv with paid := false, paidAt := none }
    (⟨updateFirst db.invoices id (fun i => { i with paid := false, paidAt := none })⟩,
     some inv2)
  | none => (db, none)

/-- `InvoiceDatabase.updatePaymentStatus`: dispatches on the requested
status. -/
def updatePaymentStatus (db : DB) (id : String) (paid : Bool) (now : JDate) :
    DB × Option Invoice :=
  if paid then markAsPaid db id now else markAsUnpaid db id

/-- `InvoiceDatabase.getInvoicesForAutoSend`: filter keeping invoices with
`autoSendEnabled` truthy, `nextSendDate` non-null, and
`new Date(nextSendDate) <= now`. -/
def getInvoicesForAutoSend (db : DB) (now : JDate) : List Invoice :=
  db.invoices.filter (fun inv =>
    inv.autoSendEnabled &&
      match inv.nextSendDate with
      | none => false
      | some d => JDate.le d now)

/-- `InvoiceDatabase.updateNextSendDate`: when the invoice exists and its
`nextSendDate` is non-null, shift that stored date one month forward with
`setMonth(getMonth() + 1)` and stamp `lastSentAt` with the current time. -/
def updateNextSendDate (db : DB) (id : String) (now : JDate) :
    DB × Option Invoice :=
  match getInvoiceById db id with
  | some inv =>
    match inv.nextSendDate with
    | some cur =>
      let upd := fun (i : Invoice) =>
        { i with nextSendDate := some (addOneMonth cur), lastSentAt := some now }
      (⟨updateFirst db.invoices id upd⟩, some (upd inv))
    | none => (db, none)
  | none => (db, none)

/-- `InvoiceDatabase.setAutoSend`: sets `autoSendEnabled`; the
`nextSendDate` field is overwritten only when the argument is truthy
(`if (nextSendDate)`), so passing `null` leaves the stored date as it was. -/
def setAutoSend (db : DB) (id : String) (enabled : Bool)
    (nextSendDate : Option JDate) : DB × Option Invoice :=
  match getInvoiceById db id with
  | some inv =>
    let upd := fun (i : Invoice) =>
      match nextSendDate with
      | some d => { i with autoSendEnabled := enabled, nextSendDate := some d }
      | none => { i with autoSendEnabled := enabled }
    (⟨updateFirst db.invoices id upd⟩, some (upd inv))
  | none => (db, none)

/-! ### The `AutoSendScheduler` pass (`checkAndSend`) -/

/-- What one `checkAndSend` pass did: the ids it attempted (in order), the
ids whose `nextSendDate` it advanced, and how many `sleep(sendDelay)`
pacing waits it performed. -/
structure PassLog where
  attempted : List String
  advanced : List String
  delays : Nat
deriving DecidableEq, Repr

/-- The empty log of a pass that processed nothing. -/
def emptyLog : PassLog := ⟨[], [], 0⟩

/-- One iteration of the dispatch loop body for a single invoice: `await
this.sendInvoice(invoice)` (outcome given by `sendOk`, covering the
missing-phone, missing-PDF and WhatsApp-failure throws alike), and on
success `this.db.updateNextSendDate(invoice.id)`; a throw is caught and
only logged, leaving the database untouched. -/
def attemptOne (sendOk : Invoice → Bool) (now : JDate) (db : DB)
    (inv : Invoice) : DB :=
  if sendOk inv then (updateNextSendDate db inv.id now).1 else db

/-- The `for` loop of `checkAndSend` over the due batch: each invoice is
attempted in order; after every invoice except the last
(`if (i < invoices.length - 1)`) the pass sleeps for `sendDelay`. -/
def sendLoop (sendOk : Invoice → Bool) (now : JDate) (db : DB) :
    List Invoice → DB × PassLog
  | [] => (db, emptyLog)
  | inv :: rest =>
    let db1 := attemptOne sendOk now db inv
    let adv := if sendOk inv then [inv.id] else []
    match rest with
    | [] => (db1, ⟨[inv.id], adv, 0⟩)
    | r1 :: r2 =>
      let res := sendLoop sendOk now db1 (r1 :: r2)
      (res.1, ⟨inv.id :: res.2.attempted, adv ++ res.2.advanced,
               res.2.delays + 1⟩)

/-- The body of the `try` block of `checkAndSend`: query the due set and
run the dispatch loop over it (an empty due set returns early, which
coincides with the loop on `[]`). -/
def passBody (sendOk : Invoice → Bool) (now : JDate) (db : DB) :
    DB × PassLog :=
  sendLoop sendOk now db (getInvoicesForAutoSend db now)

/-- The scheduler's mutable state: its database plus the `isProcessing`
single-flight flag. -/
structure SchedState where
  db : DB
  isProcessing : Bool
deriving DecidableEq, Repr

/-- Outcome of running the `try` block of `checkAndSend` to its end or to
an uncaught throw: the database as left behind, the log so far, and
`err = some m` when the block raised (the outer `catch` only logs `m`). -/
structure BodyResult where
  db : DB
  log : PassLog
  err : Option String
deriving Repr

/-- `AutoSendScheduler.checkAndSend`, generic in the `try`-block body: if
`isProcessing` is already set the call returns at once, touching nothing;
otherwise the flag is raised, the body runs (possibly raising, which the
`catch` swallows), and the `finally` clause lowers the flag again in every
case. -/
def checkAndSendWith (st : SchedState) (body : DB → BodyResult) :
    SchedState × PassLog :=
  if st.isProcessing then (st, emptyLog)
  else
    let r := body st.db
    (⟨r.db, false⟩, r.log)

/-- `AutoSendScheduler.checkAndSend` with the actual dispatch body, whose
own per-invoice `try`/`catch` means it never raises (`err = none`). -/
def checkAndSend (st : SchedState) (sendOk : Invoice → Bool) (now : JDate) :
    SchedState × PassLog :=
  checkAndSendWith st (fun db =>
    let res := passBody sendOk now db
    ⟨res.1, res.2, none⟩)

/-! ### The `PUT /api/invoices/:id/payment` route handler -/

/-- The JSON response of the payment route: HTTP status, the `success`
flag, whether a `newInvoice` object was included, and the non-fatal
`error` string of the duplication-failed branch. -/
structure PaymentResponse where
  status : Nat
  success : Bool
  newInvoiceCreated : Bool
  warning : Option String
deriving Repr

/-- The payment route handler.  `paidReq` is the request body's `paid`
flag; `pdfOk` is the outcome of `invoiceService.createInvoice` for the
duplicate (the duplication `try` block's only awaited fallible step, which
runs before any database write of the duplication); `newNumber` is
`invoiceCounter.getNextInvoiceNumber()`, `newId` the id `addInvoice` will
assign, and `now` the wall clock.

The flow mirrors the source: read the old invoice, remember `wasUnpaid`,
apply `updatePaymentStatus`, and only on `paid && wasUnpaid` run the
duplication rule — compute `nextSendDate` one month from *now*, add the
new invoice with auto-send armed, and, when the source invoice had
`autoSendEnabled`, call `setAutoSend(id, false, null)` on it.  A throw in
the duplication block is caught and answered with `success: true` plus a
warning string. -/
def paymentHandler (db : DB) (id : String) (paidReq : Bool) (pdfOk : Bool)
    (newNumber : Nat) (newId : String) (now : JDate) :
    DB × PaymentResponse :=
  match getInvoiceById db id with
  | none => (db, ⟨404, false, false, none⟩)
  | some oldInvoice =>
    let wasUnpaid := !oldInvoice.paid
    let res := updatePaymentStatus db id paidReq now
    match res.2 with
    | none => (res.1, ⟨404, false, false, none⟩)
    | some invoice =>
      if paidReq && wasUnpaid then
        if pdfOk then
          let nextSend := addOneMonth now
          let dup : InvoiceData :=
            { invoiceNumber := newNumber
              filename := "Invoice_" ++ toString newNumber ++ ".pdf"
              -- `totalAmount`: the items sum; the optional floating-point
              -- discount adjustment is not modelled — no property below
              -- reads `amount`.
              amount := invoice.items.sum
              items := some invoice.items
              client := invoice.client
              clientPhone := some invoice.clientPhone
              isRecurring := some invoice.isRecurring
              createdAt := none
              nextSendDate := some nextSend
              autoSendEnabled := some true
              paid := none
              paidAt := none
              lastSentAt := none }
          let db2 := (addInvoice res.1 dup newId now).1
          let db3 :=
            if invoice.autoSendEnabled then (setAutoSend db2 id false none).1
            else db2
          (db3, ⟨200, true, true, none⟩)
        else
          (res.1, ⟨200, true, false,
            some "Schet oplachen, no ne udalos sozdat novyi avtomaticheski"⟩)
      else
        (res.1, ⟨200, true, false, none⟩)

/-! ### Basic lemmas about record lookup and in-place update -/

lemma length_updateFirst (l : List Invoice) (id : String) (f : Invoice → Invoice) :
    (updateFirst l id f).length = l.length := by
  induction l with
  | nil => rfl
  | cons a t ih =>
    simp only [updateFirst]
    split <;> simp [ih]

lemma find?_updateFirst_ne (l : List Invoice) (id0 : String)
    (f : Invoice → Invoice) (hf : ∀ i, (f i).id = i.id) (id : String)
    (h : id ≠ id0) :
    (updateFirst l id0 f).find? (fun i => i.id == id) =
      l.find? (fun i => i.id == id) := by
  induction l with
  | nil => rfl
  | cons a t ih =>
    simp only [updateFirst]
    by_cases ha : a.id = id0
    · simp only [ha, if_pos rfl]
      have h1 : ((f a).id == id) = false := by
        simp [hf a, ha, Ne.symm h]
      have h2 : (a.id == id) = false := by simp [ha, Ne.symm h]
      simp [List.find?, h1, h2]
    · simp only [if_neg ha]
      by_cases hb : a.id = id
      · simp [List.find?, hb]
      · have h2 : (a.id == id) = false := by simp [hb]
        simp [List.find?, h2, ih]

lemma find?_updateFirst_self (l : List Invoice) (id : String)
    (f : Invoice → Invoice) (inv : Invoice)
    (h : l.find? (fun i => i.id == id) = some inv)
    (hf : (f inv).id = inv.id) :
    (updateFirst l id f).find? (fun i => i.id == id) = some (f inv) := by
  induction l with
  | nil => simp [List.find?] at h
  | cons a t ih =>
    simp only [updateFirst]
    by_cases ha : a.id = id
    · have hpa : (a.id == id) = true := by simp [ha]
      rw [List.find?_cons_of_pos (p := fun i => i.id == id) t hpa] at h
      obtain rfl : a = inv := by injection h
      simp only [if_pos ha]
      have hfa : ((f a).id == id) = true := by simp [hf, ha]
      exact List.find?_cons_of_pos (p := fun i => i.id == id) t hfa
    · have hpa : ¬ ((a.id == id) = true) := by simp [ha]
      rw [List.find?_cons_of_neg (p := fun i => i.id == id) t hpa] at h
      simp only [if_neg ha]
      rw [List.find?_cons_of_neg (p := fun i => i.id == id) (updateFirst t id f) hpa]
      exact ih h

lemma updateFirst_fixpoint (l : List Invoice) (id : String)
    (f : Invoice → Invoice) (inv : Invoice)
    (h : l.find? (fun i => i.id == id) = some inv)
    (hfix : f inv = inv) :
    updateFirst l id f = l := by
  induction l with
  | nil => rfl
  | cons a t ih =>
    simp only [updateFirst]
    by_cases ha : a.id = id
    · have hpa : (a.id == id) = true := by simp [ha]
      rw [List.find?_cons_of_pos (p := fun i => i.id == id) t hpa] at h
      obtain rfl : a = inv := by injection h
      simp [ha, hfix]
    · have hpa : ¬ ((a.id == id) = true) := by simp [ha]
      rw [List.find?_cons_of_neg (p := fun i => i.id == id) t hpa] at h
      simp [ha, ih h]

lemma mem_updateFirst (l : List Invoice) (id : String) (f : Invoice → Invoice)
    (j : Invoice) (hj : j ∈ updateFirst l id f) :
    j ∈ l ∨ ∃ i, i ∈ l ∧ j = f i := by
  induction l with
  | nil => simp [updateFirst] at hj
  | cons a t ih =>
    simp only [updateFirst] at hj
    by_cases ha : a.id = id
    · rw [if_pos ha] at hj
      rcases List.mem_cons.mp hj with h1 | h1
      · exact Or.inr ⟨a, List.mem_cons_self a t, h1⟩
      · exact Or.inl (List.mem_cons_of_mem _ h1)
    · rw [if_neg ha] at hj
      rcases List.mem_cons.mp hj with h1 | h1
      · exact Or.inl (h1 ▸ List.mem_cons_self a t)
      · rcases ih h1 with h2 | ⟨i, hi, rfl⟩
        · exact Or.inl (List.mem_cons_of_mem _ h2)
        · exact Or.inr ⟨i, List.mem_cons_of_mem _ hi, rfl⟩

lemma find?_append_left (l l2 : List Invoice) (p : Invoice → Bool)
    (a : Invoice) (h : l.find? p = some a) :
    (l ++ l2).find? p = some a := by
  induction l with
  | nil => simp [List.find?] at h
  | cons x t ih =>
    by_cases hx : p x
    · rw [List.find?_cons_of_pos _ hx] at h
      simpa [List.find?_cons_of_pos _ hx] using h
    · have hx2 : p x = false := by simpa using hx
      rw [List.find?_cons_of_neg _ (by simp [hx2])] at h
      simpa [List.find?_cons_of_neg, hx2] using ih h

lemma nodup_find? (l : List Invoice) (hn : (l.map Invoice.id).Nodup)
    (inv : Invoice) (h : inv ∈ l) :
    l.find? (fun i => i.id == inv.id) = some inv := by
  induction l with
  | nil => simp at h
  | cons a t ih =>
    rcases List.mem_cons.mp h with rfl | hmem
    · exact List.find?_cons_of_pos _ (by simp)
    · have hna : a.id ∉ t.map Invoice.id := (List.nodup_cons.mp hn).1
      have hne : (a.id == inv.id) = false := by
        simp only [beq_eq_false_iff_ne, ne_eq]
        intro heq
        exact hna (heq ▸ List.mem_map_of_mem Invoice.id hmem)
      rw [List.find?_cons_of_neg _ (by simp [hne])]
      exact ih (List.nodup_cons.mp hn).2 hmem

lemma getInvoiceById_mk (l : List Invoice) (id : String) :
    getInvoiceById ⟨l⟩ id = l.find? (fun i => i.id == id) := rfl

lemma length_updatePaymentStatus (db : DB) (id : String) (p : Bool)
    (now : JDate) :
    (updatePaymentStatus db id p now).1.invoices.length =
      db.invoices.length := by
  cases hf : getInvoiceById db id <;>
    cases p <;>
      simp [updatePaymentStatus, markAsPaid, markAsUnpaid, hf,
            length_updateFirst]

lemma updatePaymentStatus_some (db : DB) (id : String) (p : Bool)
    (now : JDate) (inv : Invoice) (h : getInvoiceById db id = some inv) :
    (updatePaymentStatus db id p now).2 =
      some (if p then { inv with paid := true, paidAt := some now }
            else { inv with paid := false, paidAt := none }) := by
  cases p <;> simp [updatePaymentStatus, markAsPaid, markAsUnpaid, h]

lemma getInvoiceById_markAsPaid (db : DB) (id : String) (now : JDate)
    (inv : Invoice) (h : getInvoiceById db id = some inv) :
    getInvoiceById (markAsPaid db id now).1 id =
      some { inv with paid := true, paidAt := some now } := by
  obtain ⟨l⟩ := db
  rw [getInvoiceById_mk] at h
  simp only [markAsPaid, getInvoiceById_mk, h]
  exact find?_updateFirst_self l id _ inv h rfl

lemma updateFirst_congr (l : List Invoice) (id : String)
    (f g : Invoice → Invoice) (inv : Invoice)
    (h : l.find? (fun i => i.id == id) = some inv) (hfg : f inv = g inv) :
    updateFirst l id f = updateFirst l id g := by
  induction l with
  | nil => rfl
  | cons a t ih =>
    simp only [updateFirst]
    by_cases ha : a.id = id
    · have hpa : (a.id == id) = true := by simp [ha]
      rw [List.find?_cons_of_pos (p := fun i => i.id == id) t hpa] at h
      obtain rfl : a = inv := by injection h
      simp [ha, hfg]
    · have hpa : ¬ ((a.id == id) = true) := by simp [ha]
      rw [List.find?_cons_of_neg (p := fun i => i.id == id) t hpa] at h
      simp [ha, ih h]

/-! ### Facts about the calendar arithmetic -/

lemma daysInMonth_ge (y m : Nat) : 28 ≤ daysInMonth y m := by
  unfold daysInMonth
  split
  · split <;> norm_num
  · split <;> norm_num

lemma daysInMonth_le (y m : Nat) : daysInMonth y m ≤ 31 := by
  unfold daysInMonth
  split
  · split <;> norm_num
  · split <;> norm_num

lemma monthAfter_lt (d : JDate) : monthAfter d < 12 :=
  Nat.mod_lt _ (by norm_num)

lemma addOneMonth_fits (d : JDate)
    (hc : d.day ≤ daysInMonth (yearAfter d) (monthAfter d)) :
    addOneMonth d = ⟨yearAfter d, monthAfter d, d.day, d.tod⟩ := by
  simp [addOneMonth, hc]

lemma addOneMonth_overflow (d : JDate)
    (hc : daysInMonth (yearAfter d) (monthAfter d) < d.day) :
    addOneMonth d =
      ⟨yearAfter d + (monthAfter d + 1) / 12, (monthAfter d + 1) % 12,
       d.day - daysInMonth (yearAfter d) (monthAfter d), d.tod⟩ := by
  have hc2 : ¬ d.day ≤ daysInMonth (yearAfter d) (monthAfter d) := by omega
  simp [addOneMonth, hc2]

lemma addOneMonth_valid (d : JDate) (hv : validDate d) :
    validDate (addOneMonth d) := by
  obtain ⟨hm, hd1, hd2⟩ := hv
  have h31 : d.day ≤ 31 := le_trans hd2 (daysInMonth_le _ _)
  by_cases hc : d.day ≤ daysInMonth (yearAfter d) (monthAfter d)
  · rw [addOneMonth_fits d hc]
    exact ⟨monthAfter_lt d, hd1, hc⟩
  · push_neg at hc
    rw [addOneMonth_overflow d hc]
    have h28 : 28 ≤ daysInMonth (yearAfter d) (monthAfter d) :=
      daysInMonth_ge _ _
    have h28b : 28 ≤ daysInMonth (yearAfter d + (monthAfter d + 1) / 12)
        ((monthAfter d + 1) % 12) := daysInMonth_ge _ _
    unfold validDate
    refine ⟨Nat.mod_lt _ (by norm_num), ?_, ?_⟩ <;> dsimp only <;> omega

lemma addOneMonth_tod (d : JDate) : (addOneMonth d).tod = d.tod := by
  by_cases hc : d.day ≤ daysInMonth (yearAfter d) (monthAfter d)
  · rw [addOneMonth_fits d hc]
  · rw [addOneMonth_overflow d (by omega)]

/-! ### Concrete records used in witnesses and counterexamples -/

/-- A template invoice for concrete test states. -/
def baseInv : Invoice :=
  { id := "1", invoiceNumber := 1, filename := "a.pdf", amount := 100,
    items := [100], client := some "ACME", clientPhone := "89991234567",
    isRecurring := false, createdAt := ⟨2025, 0, 1, 0⟩, paid := false,
    paidAt := none, nextSendDate := none, autoSendEnabled := false,
    lastSentAt := none }

/-- An invoice already marked paid on 2025-01-15. -/
def paidInv : Invoice :=
  { baseInv with paid := true, paidAt := some ⟨2025, 0, 15, 0⟩ }

/-- A recurring invoice due on 2025-01-31 (January 31). -/
def janInv : Invoice :=
  { baseInv with
    id := "2",
    autoSendEnabled := true,
    nextSendDate := some ⟨2025, 0, 31, 0⟩ }

/-- The two-state payment invariant of the data model. -/
def paymentInvariant (inv : Invoice) : Prop :=
  inv.paid = true ↔ inv.paidAt ≠ none

instance (inv : Invoice) : Decidable (paymentInvariant inv) := by
  unfold paymentInvariant; infer_instance

/-! ### Claim theorems -/

/-- C7: `getInvoicesForAutoSend` returns exactly the stored invoices with
`autoSendEnabled = true`, a non-null `nextSendDate`, and
`nextSendDate <= now` (inclusive, so an invoice due exactly at `now` is
returned); invoices with the flag off or a future date are excluded, and
the query reads the store without changing any record. -/
theorem mem_getInvoicesForAutoSend (db : DB) (now : JDate) (inv : Invoice) :
    inv ∈ getInvoicesForAutoSend db now ↔
      inv ∈ db.invoices ∧ inv.autoSendEnabled = true ∧
        ∃ d, inv.nextSendDate = some d ∧ JDate.le d now = true := by
  unfold getInvoicesForAutoSend
  rw [List.mem_filter]
  refine and_congr_right fun _ => ?_
  cases h : inv.nextSendDate with
  | none => simp [h]
  | some d => simp [h, Bool.and_eq_true]

/-- C10: every invoice created through `addInvoice` starts with
`paid = false`, `paidAt = null` and `lastSentAt = null`, regardless of what
the caller-supplied data contained for those fields, and exactly that
record is appended to the store. -/
theorem addInvoice_starts_unpaid (db : DB) (d : InvoiceData) (newId : String)
    (now : JDate) :
    (addInvoice db d newId now).2.paid = false ∧
    (addInvoice db d newId now).2.paidAt = none ∧
    (addInvoice db d newId now).2.lastSentAt = none ∧
    (addInvoice db d newId now).1.invoices =
      db.invoices ++ [(addInvoice db d newId now).2] :=
  ⟨rfl, rfl, rfl, rfl⟩

/-- C8: the payment invariant `paid = true ↔ paidAt ≠ null` holds for every
stored invoice after any `markAsPaid` or `markAsUnpaid` call, provided it
held before: `markAsPaid` sets `paid = true` together with a non-null
`paidAt`, and `markAsUnpaid` sets `paid = false` together with
`paidAt = null`. -/
theorem payment_invariant_preserved (db : DB) (id : String) (now : JDate)
    (h : ∀ inv ∈ db.invoices, paymentInvariant inv) :
    (∀ inv ∈ (markAsPaid db id now).1.invoices, paymentInvariant inv) ∧
    (∀ inv ∈ (markAsUnpaid db id).1.invoices, paymentInvariant inv) := by
  constructor
  · intro inv hm
    simp only [markAsPaid] at hm
    cases hf : getInvoiceById db id with
    | none => rw [hf] at hm; exact h inv hm
    | some i0 =>
      rw [hf] at hm
      simp only at hm
      rcases mem_updateFirst _ _ _ _ hm with h1 | ⟨i, _, rfl⟩
      · exact h inv h1
      · simp [paymentInvariant]
  · intro inv hm
    simp only [markAsUnpaid] at hm
    cases hf : getInvoiceById db id with
    | none => rw [hf] at hm; exact h inv hm
    | some i0 =>
      rw [hf] at hm
      simp only at hm
      rcases mem_updateFirst _ _ _ _ hm with h1 | ⟨i, _, rfl⟩
      · exact h inv h1
      · simp [paymentInvariant]

/-- Witness for C8 at a concrete two-invoice store. -/
theorem payment_invariant_preserved_witness :
    (∀ inv ∈ (⟨[baseInv, janInv]⟩ : DB).invoices, paymentInvariant inv) ∧
    ((∀ inv ∈ (markAsPaid ⟨[baseInv, janInv]⟩ "1" ⟨2025, 5, 1, 0⟩).1.invoices,
        paymentInvariant inv) ∧
     (∀ inv ∈ (markAsUnpaid ⟨[baseInv, janInv]⟩ "1").1.invoices,
        paymentInvariant inv)) :=
  ⟨by decide, payment_invariant_preserved ⟨[baseInv, janInv]⟩ "1" ⟨2025, 5, 1, 0⟩ (by decide)⟩

/-- C9 counterexample: calling `markAsPaid` on the already-paid invoice
`paidInv` (paid at 2025-01-15) overwrites `paidAt` with the new current
time 2025-06-01, so the repeated call does not leave every field
unchanged. -/
theorem markAsPaid_repaid_changes_paidAt :
    paidInv.paid = true ∧
    (markAsPaid ⟨[paidInv]⟩ "1" ⟨2025, 5, 1, 0⟩).2.map Invoice.paidAt =
      some (some ⟨2025, 5, 1, 0⟩) ∧
    (markAsPaid ⟨[paidInv]⟩ "1" ⟨2025, 5, 1, 0⟩).2.map Invoice.paidAt ≠
      some paidInv.paidAt := by decide

/-- C9 (amended): `markAsUnpaid` on an already-unpaid invoice is a complete
no-op (database and returned record unchanged), while `markAsPaid` on an
already-paid invoice leaves every field except `paidAt` unchanged but
refreshes `paidAt` to the current time. -/
theorem repeated_payment_calls (db : DB) (id : String) (now : JDate)
    (inv : Invoice) (h : getInvoiceById db id = some inv) :
    (inv.paid = false → inv.paidAt = none →
      markAsUnpaid db id = (db, some inv)) ∧
    (inv.paid = true →
      markAsPaid db id now =
        (⟨updateFirst db.invoices id (fun i => { i with paidAt := some now })⟩,
         some { inv with paidAt := some now })) := by
  obtain ⟨l⟩ := db
  rw [getInvoiceById_mk] at h
  constructor
  · intro hp hpa
    have hfix : { inv with paid := false, paidAt := none } = inv := by
      cases inv; simp_all
    simp only [markAsUnpaid, getInvoiceById_mk, h]
    rw [updateFirst_fixpoint l id _ inv h hfix, hfix]
  · intro hp
    have heq : { inv with paid := true, paidAt := some now } =
        { inv with paidAt := some now } := by
      cases inv; simp_all
    simp only [markAsPaid, getInvoiceById_mk, h]
    rw [updateFirst_congr l id
          (fun i => { i with paid := true, paidAt := some now })
          (fun i => { i with paidAt := some now }) inv h heq, heq]

/-- Witness for C9 (amended): the no-op branch at a concrete unpaid
invoice. -/
theorem repeated_payment_calls_witness :
    markAsUnpaid ⟨[baseInv]⟩ "1" = (⟨[baseInv]⟩, some baseInv) :=
  (repeated_payment_calls ⟨[baseInv]⟩ "1" ⟨2025, 5, 1, 0⟩ baseInv
    (by decide)).1 (by decide) (by decide)

/-- C1 counterexample: advancing the invoice due on January 31, 2025 does
not clamp to February 28: `setMonth` overflow lands it on March 3, 2025
(month index 2, day 3), not on February 28 (month index 1, day 28). -/
theorem updateNextSendDate_jan31_overflows :
    (updateNextSendDate ⟨[janInv]⟩ "2" ⟨2025, 1, 1, 0⟩).2.map
        Invoice.nextSendDate = some (some ⟨2025, 2, 3, 0⟩) ∧
    (some (⟨2025, 2, 3, 0⟩ : JDate) : Option JDate) ≠
      some ⟨2025, 1, 28, 0⟩ := by decide

/-- C1 (amended): `updateNextSendDate` replaces a set `nextSendDate` with
the date one calendar month after its current value (not after `now`) and
stamps `lastSentAt = now`; the day-of-month is preserved whenever it exists
in the target month, but when it does not, JavaScript `setMonth` semantics
roll the excess days over into the month after the target (no clamping:
Jan 31 becomes Mar 2/3); the result is always a valid calendar date. -/
theorem updateNextSendDate_one_month_js (db : DB) (id : String) (now : JDate)
    (inv : Invoice) (d : JDate)
    (h : getInvoiceById db id = some inv)
    (hd : inv.nextSendDate = some d)
    (hv : validDate d) :
    (updateNextSendDate db id now).2 =
      some { inv with nextSendDate := some (addOneMonth d),
                      lastSentAt := some now } ∧
    getInvoiceById (updateNextSendDate db id now).1 id =
      some { inv with nextSendDate := some (addOneMonth d),
                      lastSentAt := some now } ∧
    validDate (addOneMonth d) ∧
    (addOneMonth d).tod = d.tod ∧
    (d.day ≤ daysInMonth (yearAfter d) (monthAfter d) →
      addOneMonth d = ⟨yearAfter d, monthAfter d, d.day, d.tod⟩) ∧
    (daysInMonth (yearAfter d) (monthAfter d) < d.day →
      addOneMonth d =
        ⟨yearAfter d + (monthAfter d + 1) / 12, (monthAfter d + 1) % 12,
         d.day - daysInMonth (yearAfter d) (monthAfter d), d.tod⟩) := by
  obtain ⟨l⟩ := db
  rw [getInvoiceById_mk] at h
  refine ⟨?_, ?_, addOneMonth_valid d hv, addOneMonth_tod d,
          addOneMonth_fits d, addOneMonth_overflow d⟩
  · simp only [updateNextSendDate, getInvoiceById_mk, h, hd]
  · simp only [updateNextSendDate, getInvoiceById_mk, h, hd]
    exact find?_updateFirst_self l id _ inv h rfl

/-- Witness for C1 (amended) at the concrete January 31 invoice. -/
theorem updateNextSendDate_one_month_js_witness :
    (updateNextSendDate ⟨[janInv]⟩ "2" ⟨2025, 1, 1, 0⟩).2 =
      some { janInv with nextSendDate := some (addOneMonth ⟨2025, 0, 31, 0⟩),
                         lastSentAt := some ⟨2025, 1, 1, 0⟩ } :=
  (updateNextSendDate_one_month_js ⟨[janInv]⟩ "2" ⟨2025, 1, 1, 0⟩ janInv
    ⟨2025, 0, 31, 0⟩ (by decide) (by decide) (by decide)).1

/-- C2: the single-flight guard of `checkAndSend` — a call arriving while
`isProcessing` is set returns immediately with nothing attempted, nothing
advanced and no delay, leaving all state untouched; and whenever a pass
does run, the guard is back down afterwards for every body, including one
that raised an exception. -/
theorem checkAndSend_single_flight (st : SchedState) (body : DB → BodyResult)
    (sendOk : Invoice → Bool) (now : JDate) :
    (st.isProcessing = true →
      checkAndSendWith st body = (st, emptyLog) ∧
      checkAndSend st sendOk now = (st, emptyLog)) ∧
    (st.isProcessing = false →
      (checkAndSendWith st body).1.isProcessing = false ∧
      (checkAndSend st sendOk now).1.isProcessing = false) := by
  constructor <;> intro hp <;> constructor <;>
    simp [checkAndSendWith, checkAndSend, hp]

/-- Witness for C2: a busy scheduler drops the call even for a raising
body, and an idle scheduler ends with the guard released even when the
body raises. -/
theorem checkAndSend_single_flight_witness :
    (checkAndSendWith ⟨⟨[janInv]⟩, true⟩
        (fun db => ⟨db, emptyLog, some "boom"⟩) =
      (⟨⟨[janInv]⟩, true⟩, emptyLog)) ∧
    (checkAndSendWith ⟨⟨[janInv]⟩, false⟩
        (fun db => ⟨db, emptyLog, some "boom"⟩)).1.isProcessing = false :=
  ⟨((checkAndSend_single_flight ⟨⟨[janInv]⟩, true⟩
      (fun db => ⟨db, emptyLog, some "boom"⟩) (fun _ => true)
      ⟨2025, 1, 1, 0⟩).1 rfl).1,
   ((checkAndSend_single_flight ⟨⟨[janInv]⟩, false⟩
      (fun db => ⟨db, emptyLog, some "boom"⟩) (fun _ => true)
      ⟨2025, 1, 1, 0⟩).2 rfl).1⟩

/-- C3: the duplication rule runs only on a false-to-true transition of
`paid`: when the stored invoice is already paid, or the request does not
set `paid`, no new invoice is created (the store keeps its size and the
response carries no `newInvoice`). -/
theorem duplication_only_on_unpaid_to_paid (db : DB) (id : String)
    (paidReq pdfOk : Bool) (n : Nat) (newId : String) (now : JDate)
    (inv : Invoice) (h : getInvoiceById db id = some inv)
    (hcase : inv.paid = true ∨ paidReq = false) :
    (paymentHandler db id paidReq pdfOk n newId now).1.invoices.length =
      db.invoices.length ∧
    (paymentHandler db id paidReq pdfOk n newId now).2.newInvoiceCreated =
      false := by
  have hcond : (paidReq && !inv.paid) = false := by
    rcases hcase with h1 | h1 <;> simp [h1]
  simp only [paymentHandler, h, updatePaymentStatus_some db id paidReq now inv h,
             hcond, Bool.false_eq_true, if_false]
  exact ⟨length_updatePaymentStatus db id paidReq now, trivial⟩

/-- Witness for C3 at an already-paid concrete invoice. -/
theorem duplication_only_on_unpaid_to_paid_witness :
    (paymentHandler ⟨[paidInv]⟩ "1" true true 7 "99"
        ⟨2025, 5, 1, 0⟩).1.invoices.length =
      (⟨[paidInv]⟩ : DB).invoices.length ∧
    (paymentHandler ⟨[paidInv]⟩ "1" true true 7 "99"
        ⟨2025, 5, 1, 0⟩).2.newInvoiceCreated = false :=
  duplication_only_on_unpaid_to_paid ⟨[paidInv]⟩ "1" true true 7 "99"
    ⟨2025, 5, 1, 0⟩ paidInv (by decide) (Or.inl (by decide))

/-- C5: when the duplication step fails (PDF generation for the successor
invoice throws), the payment confirmation already applied to the source
invoice is not rolled back — the source stays paid with its `paidAt`
stamp — and the operation still answers HTTP 200 with `success: true`,
surfacing the duplication error only as a warning string; no new invoice
is reported. -/
theorem paymentHandler_no_rollback_on_dup_failure (db : DB) (id : String)
    (n : Nat) (newId : String) (now : JDate) (inv : Invoice)
    (h : getInvoiceById db id = some inv) (hunpaid : inv.paid = false) :
    getInvoiceById (paymentHandler db id true false n newId now).1 id =
      some { inv with paid := true, paidAt := some now } ∧
    (paymentHandler db id true false n newId now).2.status = 200 ∧
    (paymentHandler db id true false n newId now).2.success = true ∧
    (paymentHandler db id true false n newId now).2.warning.isSome = true ∧
    (paymentHandler db id true false n newId now).2.newInvoiceCreated =
      false := by
  have hcond : (true && !inv.paid) = true := by simp [hunpaid]
  simp only [paymentHandler, h, updatePaymentStatus_some db id true now inv h,
             hcond, if_true, Bool.false_eq_true, if_false]
  refine ⟨?_, trivial, trivial, rfl, trivial⟩
  have : (updatePaymentStatus db id true now).1 = (markAsPaid db id now).1 := by
    simp [updatePaymentStatus]
  rw [this]
  exact getInvoiceById_markAsPaid db id now inv h

/-- Witness for C5 at a concrete unpaid invoice with failing PDF
generation. -/
theorem paymentHandler_no_rollback_witness :
    getInvoiceById
        (paymentHandler ⟨[baseInv]⟩ "1" true false 7 "99"
          ⟨2025, 5, 1, 0⟩).1 "1" =
      some { baseInv with paid := true, paidAt := some ⟨2025, 5, 1, 0⟩ } :=
  (paymentHandler_no_rollback_on_dup_failure ⟨[baseInv]⟩ "1" 7 "99"
    ⟨2025, 5, 1, 0⟩ baseInv (by decide) (by decide)).1

/-- C4 counterexample: paying the recurring January invoice (auto-send on,
`nextSendDate` = 2025-01-31) runs the duplication rule, which turns the
source's `autoSendEnabled` off — but its `nextSendDate` is *not* cleared:
`setAutoSend(id, false, null)` skips the date assignment because `null` is
falsy, so the stored date stays 2025-01-31 instead of becoming `null`. -/
theorem paymentHandler_keeps_nextSendDate_cex :
    (getInvoiceById (paymentHandler ⟨[janInv]⟩ "2" true true 7 "99"
        ⟨2025, 1, 1, 0⟩).1 "2").map Invoice.autoSendEnabled = some false ∧
    (getInvoiceById (paymentHandler ⟨[janInv]⟩ "2" true true 7 "99"
        ⟨2025, 1, 1, 0⟩).1 "2").map Invoice.nextSendDate =
      some (some ⟨2025, 0, 31, 0⟩) ∧
    (some (some (⟨2025, 0, 31, 0⟩ : JDate)) : Option (Option JDate)) ≠
      some none := by decide

/-- C4 (amended): whenever the duplication rule runs on a source invoice
that had `autoSendEnabled = true`, the source ends with
`autoSendEnabled = false`, while its `nextSendDate` is left unchanged (not
cleared — `setAutoSend` ignores a `null` date argument); the paid invoice
nevertheless can no longer appear in the due set, because the due-set
query requires the flag. -/
theorem paymentHandler_disables_autosend (db : DB) (id : String) (n : Nat)
    (newId : String) (now : JDate) (inv : Invoice)
    (h : getInvoiceById db id = some inv) (hunpaid : inv.paid = false)
    (hauto : inv.autoSendEnabled = true) :
    getInvoiceById (paymentHandler db id true true n newId now).1 id =
      some { inv with paid := true, paidAt := some now,
                      autoSendEnabled := false } ∧
    ({ inv with paid := true, paidAt := some now,
                autoSendEnabled := false } : Invoice).nextSendDate =
      inv.nextSendDate ∧
    ∀ now2,
      ({ inv with paid := true, paidAt := some now,
                  autoSendEnabled := false } : Invoice) ∉
        getInvoicesForAutoSend (paymentHandler db id true true n newId now).1
          now2 := by
  obtain ⟨l⟩ := db
  rw [getInvoiceById_mk] at h
  have hcond : (true && !inv.paid) = true := by simp [hunpaid]
  have hfind1 : (updateFirst l id
      (fun i => { i with paid := true, paidAt := some now })).find?
      (fun i => i.id == id) =
      some { inv with paid := true, paidAt := some now } :=
    find?_updateFirst_self l id _ inv h rfl
  have hfind2 : ∀ l2, ((updateFirst l id
      (fun i => { i with paid := true, paidAt := some now })) ++ l2).find?
      (fun i => i.id == id) =
      some { inv with paid := true, paidAt := some now } :=
    fun l2 => find?_append_left _ l2 _ _ hfind1
  simp only [paymentHandler, getInvoiceById_mk, h,
             updatePaymentStatus_some ⟨l⟩ id true now inv
               (by rw [getInvoiceById_mk]; exact h),
             hcond, if_true, updatePaymentStatus, markAsPaid,
             getInvoiceById_mk, addInvoice, setAutoSend, hauto, hfind2]
  refine ⟨?_, trivial, ?_⟩
  · exact find?_updateFirst_self _ id _ _ (hfind2 _) rfl
  · intro now2 hmem
    simp [getInvoicesForAutoSend, List.mem_filter] at hmem

/-- Witness for C4 (amended) at the concrete recurring January invoice. -/
theorem paymentHandler_disables_autosend_witness :
    getInvoiceById (paymentHandler ⟨[janInv]⟩ "2" true true 7 "99"
        ⟨2025, 1, 1, 0⟩).1 "2" =
      some { janInv with paid := true, paidAt := some ⟨2025, 1, 1, 0⟩,
                         autoSendEnabled := false } :=
  (paymentHandler_disables_autosend ⟨[janInv]⟩ "2" 7 "99" ⟨2025, 1, 1, 0⟩
    janInv (by decide) (by decide) (by decide)).1

/-! ### The dispatch loop: frame and per-invoice effects -/

lemma getInvoiceById_attemptOne_ne (sendOk : Invoice → Bool) (now : JDate)
    (db : DB) (inv : Invoice) (id : String) (hne : id ≠ inv.id) :
    getInvoiceById (attemptOne sendOk now db inv) id =
      getInvoiceById db id := by
  unfold attemptOne
  split
  · cases hf : getInvoiceById db inv.id with
    | none => simp [updateNextSendDate, hf]
    | some i0 =>
      cases hd : i0.nextSendDate with
      | none => simp [updateNextSendDate, hf, hd]
      | some cur =>
        obtain ⟨l⟩ := db
        simp only [updateNextSendDate, hf, hd, getInvoiceById_mk]
        exact find?_updateFirst_ne l inv.id
          (fun i => { i with nextSendDate := some (addOneMonth cur),
                             lastSentAt := some now })
          (fun i => rfl) id hne
  · rfl

lemma getInvoiceById_attemptOne_self (sendOk : Invoice → Bool) (now : JDate)
    (db : DB) (inv : Invoice) (d : JDate)
    (h : getInvoiceById db inv.id = some inv)
    (hd : inv.nextSendDate = some d) :
    getInvoiceById (attemptOne sendOk now db inv) inv.id =
      some (if sendOk inv then
              { inv with nextSendDate := some (addOneMonth d),
                         lastSentAt := some now }
            else inv) := by
  by_cases hs : sendOk inv
  · obtain ⟨l⟩ := db
    rw [getInvoiceById_mk] at h
    simp only [attemptOne, hs, if_true, updateNextSendDate, getInvoiceById_mk,
               h, hd]
    exact find?_updateFirst_self l inv.id _ inv h rfl
  · simp [attemptOne, hs, h]

lemma sendLoop_frame (sendOk : Invoice → Bool) (now : JDate) :
    ∀ (l : List Invoice) (db : DB) (id : String),
    id ∉ l.map Invoice.id →
    getInvoiceById (sendLoop sendOk now db l).1 id = getInvoiceById db id := by
  intro l
  induction l with
  | nil => intro db id _; rfl
  | cons inv rest ih =>
    intro db id hid
    rw [List.map_cons, List.mem_cons] at hid
    push_neg at hid
    obtain ⟨hid1, hid2⟩ := hid
    cases rest with
    | nil =>
      exact getInvoiceById_attemptOne_ne sendOk now db inv id hid1
    | cons r1 r2 =>
      show getInvoiceById (sendLoop sendOk now
        (attemptOne sendOk now db inv) (r1 :: r2)).1 id = _
      rw [ih (attemptOne sendOk now db inv) id hid2]
      exact getInvoiceById_attemptOne_ne sendOk now db inv id hid1

lemma sendLoop_spec (sendOk : Invoice → Bool) (now : JDate) :
    ∀ (l : List Invoice) (db : DB),
    (∀ inv ∈ l, getInvoiceById db inv.id = some inv) →
    ((l.map Invoice.id).Nodup) →
    (∀ inv ∈ l, inv.nextSendDate.isSome = true) →
    (sendLoop sendOk now db l).2.delays = l.length - 1 ∧
    (sendLoop sendOk now db l).2.attempted = l.map Invoice.id ∧
    (∀ inv ∈ l, ∃ d, inv.nextSendDate = some d ∧
      getInvoiceById (sendLoop sendOk now db l).1 inv.id =
        some (if sendOk inv then
                { inv with nextSendDate := some (addOneMonth d),
                           lastSentAt := some now }
              else inv)) := by
  intro l
  induction l with
  | nil =>
    intro db _ _ _
    exact ⟨rfl, rfl, by intro inv h; simp at h⟩
  | cons inv rest ih =>
    intro db hfound hnodup hsome
    have hinv : getInvoiceById db inv.id = some inv :=
      hfound inv (List.mem_cons_self inv rest)
    obtain ⟨d, hd⟩ : ∃ d, inv.nextSendDate = some d :=
      Option.isSome_iff_exists.mp (hsome inv (List.mem_cons_self inv rest))
    have hhead := getInvoiceById_attemptOne_self sendOk now db inv d hinv hd
    have hnotin : inv.id ∉ rest.map Invoice.id :=
      (List.nodup_cons.mp (by simpa using hnodup)).1
    cases rest with
    | nil =>
      refine ⟨rfl, rfl, ?_⟩
      intro i hi
      rw [List.mem_singleton] at hi
      subst hi
      exact ⟨d, hd, hhead⟩
    | cons r1 r2 =>
      have htail : ∀ i ∈ r1 :: r2,
          getInvoiceById (attemptOne sendOk now db inv) i.id = some i := by
        intro i hi
        have hne : i.id ≠ inv.id := by
          intro he
          exact hnotin (he ▸ List.mem_map_of_mem Invoice.id hi)
        rw [getInvoiceById_attemptOne_ne sendOk now db inv i.id hne]
        exact hfound i (List.mem_cons_of_mem inv hi)
      have ihres := ih (attemptOne sendOk now db inv) htail
        (List.nodup_cons.mp (by simpa using hnodup)).2
        (fun i hi => hsome i (List.mem_cons_of_mem inv hi))
      obtain ⟨ihd, iha, ihp⟩ := ihres
      refine ⟨?_, ?_, ?_⟩
      · show (sendLoop sendOk now (attemptOne sendOk now db inv)
          (r1 :: r2)).2.delays + 1 = _
        rw [ihd]
        simp
      · show inv.id :: (sendLoop sendOk now (attemptOne sendOk now db inv)
          (r1 :: r2)).2.attempted = _
        rw [iha]
        simp
      · intro i hi
        rcases List.mem_cons.mp hi with rfl | hi2
        · refine ⟨d, hd, ?_⟩
          show getInvoiceById (sendLoop sendOk now
            (attemptOne sendOk now db i) (r1 :: r2)).1 i.id = _
          rw [sendLoop_frame sendOk now (r1 :: r2) _ i.id hnotin]
          exact hhead
        · obtain ⟨d2, hd2, hlook⟩ := ihp i hi2
          exact ⟨d2, hd2, hlook⟩

/-- C6: one dispatch pass over the due batch attempts every due invoice in
order, performs exactly `n - 1` inter-send pacing delays for a batch of
`n`, keeps going after a send failure, leaves a failed invoice's record
(including `nextSendDate`) completely unchanged, and advances each
successfully sent invoice's `nextSendDate` by one month while stamping its
`lastSentAt`. -/
theorem dispatch_pass_pacing_and_errors (db : DB) (sendOk : Invoice → Bool)
    (now : JDate) (hids : (db.invoices.map Invoice.id).Nodup) :
    (checkAndSend ⟨db, false⟩ sendOk now).2.delays =
      (getInvoicesForAutoSend db now).length - 1 ∧
    (checkAndSend ⟨db, false⟩ sendOk now).2.attempted =
      (getInvoicesForAutoSend db now).map Invoice.id ∧
    (∀ inv ∈ getInvoicesForAutoSend db now, ∃ d, inv.nextSendDate = some d ∧
      getInvoiceById (checkAndSend ⟨db, false⟩ sendOk now).1.db inv.id =
        some (if sendOk inv then
                { inv with nextSendDate := some (addOneMonth d),
                           lastSentAt := some now }
              else inv)) := by
  have hsubl : (getInvoicesForAutoSend db now).Sublist db.invoices :=
    List.filter_sublist db.invoices
  have hnodup2 : (((getInvoicesForAutoSend db now).map Invoice.id)).Nodup :=
    List.Nodup.sublist (List.Sublist.map Invoice.id hsubl) hids
  have h1 : ∀ inv ∈ getInvoicesForAutoSend db now,
      getInvoiceById db inv.id = some inv := fun inv hm =>
    nodup_find? db.invoices hids inv (List.mem_of_mem_filter hm)
  have h2 : ∀ inv ∈ getInvoicesForAutoSend db now,
      inv.nextSendDate.isSome = true := by
    intro inv hm
    have hp := List.of_mem_filter hm
    cases hns : inv.nextSendDate with
    | none => rw [hns] at hp; simp at hp
    | some d => rfl
  have hmain := sendLoop_spec sendOk now (getInvoicesForAutoSend db now) db
    h1 hnodup2 h2
  have hred : checkAndSend ⟨db, false⟩ sendOk now =
      (⟨(sendLoop sendOk now db (getInvoicesForAutoSend db now)).1, false⟩,
       (sendLoop sendOk now db (getInvoicesForAutoSend db now)).2) := by
    simp [checkAndSend, checkAndSendWith, passBody]
  rw [hred]
  exact hmain

/-- Due invoice "a" of the three-invoice pacing scenario. -/
def invA : Invoice :=
  { baseInv with
    id := "a",
    autoSendEnabled := true,
    nextSendDate := some ⟨2025, 0, 15, 0⟩ }

/-- Due invoice "b" of the three-invoice pacing scenario (its send will
fail). -/
def invB : Invoice :=
  { baseInv with
    id := "b",
    autoSendEnabled := true,
    nextSendDate := some ⟨2025, 0, 16, 0⟩ }

/-- Due invoice "c" of the three-invoice pacing scenario. -/
def invC : Invoice :=
  { baseInv with
    id := "c",
    autoSendEnabled := true,
    nextSendDate := some ⟨2025, 0, 17, 0⟩ }

/-- A send outcome where every invoice succeeds except invoice "b". -/
def sendOkExceptB (i : Invoice) : Bool := i.id != "b"

/-- Witness for C6: the three-invoice batch with a failing second send
still performs exactly two pacing delays. -/
theorem dispatch_pass_pacing_and_errors_witness :
    (checkAndSend ⟨⟨[invA, invB, invC]⟩, false⟩ sendOkExceptB
        ⟨2025, 1, 1, 0⟩).2.delays =
      (getInvoicesForAutoSend ⟨[invA, invB, invC]⟩ ⟨2025, 1, 1, 0⟩).length -
        1 :=
  (dispatch_pass_pacing_and_errors ⟨[invA, invB, invC]⟩ sendOkExceptB
    ⟨2025, 1, 1, 0⟩ (by decide)).1

end Pack
